import Mathlib

/-!  Verification of the install/remove core of the `instar` package manager
    (`src/main.rs`), through a shallow embedding of its path handling and
    filesystem operations.  Absolute paths are component lists; a filesystem
    snapshot is the pair of its file set and its directory set.  Panics of the
    source that merely abort the process on I/O failure (failed `unwrap` on a
    missing file, unreadable entry, ...) are not given a dedicated error value:
    the claims under study only exercise runs in which those operations
    succeed, and the two precondition failures that the claims do talk about
    (`InvalidArchiveName`, `AlreadyInstalled`, `NotInstalled`) are modelled as
    explicit error results. -/

namespace Instar

/-- An absolute filesystem path, as its list of components
(the empty list is the filesystem root `/`). -/
abbrev Path := List String

/-- A filesystem snapshot: the regular files and the directories present,
each as a list of absolute paths (the list enumerates a set; creation is
idempotent, see `insertP`). -/
structure FS where
  files : List Path
  dirs : List Path
deriving DecidableEq, Repr

/-- Insert a path into a list when not already present: filesystem creation
operations are idempotent at the level of which paths exist. -/
def insertP (l : List Path) (p : Path) : List Path :=
  if p ∈ l then l else l ++ [p]

/-- `Path::exists()`: the path denotes a file or a directory. -/
def pathExists (fs : FS) (p : Path) : Bool :=
  decide (p ∈ fs.files) || decide (p ∈ fs.dirs)

/-- `std::fs::create_dir`: record one new directory (main.rs line 136). -/
def FS.addDir (fs : FS) (d : Path) : FS := { fs with dirs := insertP fs.dirs d }

/-- The nonempty prefixes of a path, shortest first: the chain of directories
that `create_dir_all` ensures (the root itself is never created). -/
def ancestors (d : Path) : List Path :=
  (List.range d.length).map (fun i => d.take (i + 1))

/-- `std::fs::create_dir_all`: ensure a directory and all its ancestors
exist (main.rs line 175). -/
def FS.mkdirAll (fs : FS) (d : Path) : FS :=
  { fs with dirs := (ancestors d).foldl insertP fs.dirs }

/-- `Entry::unpack` of a regular-file tar entry (main.rs line 170): the
destination file is created or overwritten and the bytes written.  `unpack`
does not create missing parent directories — with the parent absent the
open fails and the program panics at the surrounding `expect` — so a run
that gets past this step had the parent directory already present, and the
set of directories is unchanged.  Overwriting an existing file leaves the
set of existing paths unchanged. -/
def FS.writeFile (fs : FS) (p : Path) : FS :=
  { fs with files := insertP fs.files p }

/-- `std::fs::remove_file` (main.rs line 222). -/
def FS.rmFile (fs : FS) (p : Path) : FS :=
  { fs with files := fs.files.filter (fun q => decide (q ≠ p)) }

/-- `std::fs::remove_dir` (main.rs line 237). -/
def FS.rmDir (fs : FS) (d : Path) : FS :=
  { fs with dirs := fs.dirs.filter (fun q => decide (q ≠ d)) }

/-- A tar archive entry: its archive-relative path and the tar header's
entry-type flag (directory or regular file).  File contents are not
modelled; the claims below concern which paths exist. -/
structure Entry where
  path : Path
  isDirEntry : Bool
deriving DecidableEq, Repr

/-- The five category names (main.rs lines 156-161 and 228-233). -/
def catNames : List String := ["bin", "etc", "include", "lib", "share"]

/-- `path.strip_prefix(&file_str)` (main.rs lines 151-154): drop the leading
component when it equals the package name, otherwise keep the path.  An
empty package name parses to the empty path, which always matches as a
component prefix and strips nothing. -/
def stripPkg (pkg : String) (p : Path) : Path :=
  if pkg = "" then p
  else
    match p with
    | [] => []
    | c :: rest => if c = pkg then rest else c :: rest

/-- `path.starts_with(c)` for a one-component `c`: Rust compares whole
path components, so this holds exactly when the first component equals
`c` (main.rs lines 156-161). -/
def startsWithComp (c : String) (p : Path) : Bool :=
  match p with
  | [] => false
  | c0 :: _ => decide (c0 = c)

/-- The Path Mapper's eligibility test (main.rs lines 156-163): the
(possibly stripped) path must start with one of the five categories. -/
def accepted (p : Path) : Bool :=
  startsWithComp "bin" p || startsWithComp "etc" p || startsWithComp "include" p ||
    startsWithComp "lib" p || startsWithComp "share" p

/-- One step of lexical path normalization: `.` is dropped, `..` removes
the last accumulated component (clamping at the filesystem root), anything
else is appended. -/
def normStep (acc : Path) (c : String) : Path :=
  if c = "." then acc else if c = ".." then acc.dropLast else acc ++ [c]

/-- `Path::absolutize()` of the `path_absolutize` crate, applied to an
already-absolute path (main.rs line 166): resolve `.` and `..` lexically,
with `..` clamped at the root. -/
def normalize (p : Path) : Path := p.foldl normStep []

/-- `config.install_dir.join(&path).absolutize()` (main.rs lines 165-166),
for an absolute configured install root. -/
def destPath (root p : Path) : Path := normalize (root ++ p)

inductive InstallErr where
  | invalidArchiveName
  | alreadyInstalled
deriving DecidableEq, Repr

/-- Result of `install_tar`: an error together with the filesystem as left
at the failure point, or success with the final filesystem and the lines
written to the manifest file, in order. -/
inductive InstallResult where
  | err (e : InstallErr) (fs : FS)
  | ok (fs : FS) (manifest : List Path)
deriving DecidableEq, Repr

/-- The `.tar.gz` suffix, as its 7 characters (main.rs lines 125, 128). -/
def tarGzSuffix : List Char := ".tar.gz".toList

/-- Package-name derivation (main.rs line 128): the file name with its last
7 characters truncated. -/
def pkgNameOf (fileName : List Char) : List Char :=
  fileName.take (fileName.length - 7)

/-- Manifest path of a package (main.rs lines 134, 140):
`config_dir/packages/<pkg>`.  An empty package name contributes no
component: `join("")` appends only a path separator, so the resulting
path names the packages directory itself. -/
def manifestPath (configDir : Path) (pkg : List Char) : Path :=
  configDir ++ ["packages"] ++ (if pkg = [] then [] else [String.mk pkg])

/-- Body of the install loop for one entry (main.rs lines 147-177).  The
state is the filesystem plus the manifest lines written so far.  `cwdDirs`
is the set of paths that denote directories relative to the process working
directory: `path.is_dir()` on line 150 consults the real filesystem at the
archive-relative path, not the tar entry's type flag.  On the non-directory
branch the manifest line is written first, then `Entry::unpack` materializes
the entry at the destination according to its actual tar type: a
regular-file entry is written at the destination (`FS.writeFile`), a
directory entry is created by a single `create_dir` that tolerates an
already-existing directory; in both cases `unpack` leaves missing parent
directories missing (the program panics there, outside the runs studied
below, so neither case adds ancestors). -/
def stepEntry (pkg : String) (root : Path) (cwdDirs : List Path)
    (st : FS × List Path) (e : Entry) : FS × List Path :=
  let isDir : Bool := decide (e.path ∈ cwdDirs)
  let p := stripPkg pkg e.path
  if accepted p then
    let dest := destPath root p
    if isDir then (st.1.mkdirAll dest, st.2)
    else ((if e.isDirEntry then st.1.addDir dest else st.1.writeFile dest),
      st.2 ++ [dest])
  else st

/-- `install_tar` (main.rs lines 111-178).  `fileName` is the archive file
name, `entries` the archive contents in order, `configDir` the configuration
directory, `root` the configured install root, `cwdDirs` the directories
existing relative to the process working directory. -/
def installTar (fileName : List Char) (entries : List Entry)
    (configDir root : Path) (cwdDirs : List Path) (fs : FS) : InstallResult :=
  if tarGzSuffix.isSuffixOf fileName then
    let pkg := pkgNameOf fileName
    let packagesDir := configDir ++ ["packages"]
    let fs1 := if pathExists fs packagesDir then fs else fs.addDir packagesDir
    if pathExists fs1 (manifestPath configDir pkg) then .err .alreadyInstalled fs1
    else
      let fs2 : FS := { fs1 with files := insertP fs1.files (manifestPath configDir pkg) }
      let r := entries.foldl (stepEntry (String.mk pkg) root cwdDirs) (fs2, [])
      .ok r.1 r.2
  else .err .invalidArchiveName fs

inductive RemoveErr where
  | notInstalled
deriving DecidableEq, Repr

/-- `is_dir_empty` (main.rs lines 107-109): `read_dir` lists immediate
children; the directory is empty when no file or directory has it as
parent. -/
def isDirEmpty (fs : FS) (d : Path) : Bool :=
  !((fs.files ++ fs.dirs).any (fun x => decide (x.dropLast = d) && decide (x ≠ d)))

/-- The upward prune loop of `remove` (main.rs lines 226-244): while the
current directory is empty, stop when its name is a category name,
otherwise delete it and climb to its parent; climbing past the root stops
the loop.  (`config.install_dir.join(&directory)` on line 226 is `directory`
itself, since manifest lines are absolute paths.) -/
def prune (fs : FS) (d : Path) : FS :=
  if isDirEmpty fs d then
    match h : d.getLast? with
    | none => fs
    | some name =>
      if name ∈ catNames then fs
      else prune (fs.rmDir d) d.dropLast
  else fs
termination_by d.length
decreasing_by
  simp only [List.length_dropLast]
  have hd : d ≠ [] := by
    intro hnil
    rw [hnil] at h
    simp at h
  have hpos : 0 < d.length := List.length_pos.mpr hd
  omega

/-- One manifest line of the remove loop (main.rs lines 216-245): a line
denoting a directory is skipped; otherwise the file is deleted and the
prune walk starts at its parent directory. -/
def removeLine (fs : FS) (p : Path) : FS :=
  if p ∈ fs.dirs then fs
  else prune (fs.rmFile p) p.dropLast

/-- `get_config_dir` (main.rs lines 93-105): the configuration directory
(and its missing ancestors) is created when absent. -/
def getConfigDir (fs : FS) (configDir : Path) : FS :=
  if pathExists fs configDir then fs else fs.mkdirAll configDir

/-- `Config::load` (main.rs lines 44-72): the configuration file is created
when absent, then read; only its existence matters to the claims. -/
def loadConfig (fs : FS) (configDir : Path) : FS :=
  if pathExists fs (configDir ++ ["instar.cfg"]) then fs
  else { fs with files := insertP fs.files (configDir ++ ["instar.cfg"]) }

/-- `remove` (main.rs lines 206-247).  `lines` is the content of the
manifest file `configDir/packages/<pkg>` (one absolute path per line), as
read on line 216.  The returned filesystem is the state when the operation
ends, also on the `NotInstalled` early return. -/
def removePkg (pkg : String) (lines : List Path) (configDir : Path) (fs : FS) :
    FS × Option RemoveErr :=
  let fs1 := getConfigDir fs configDir
  let pkgFile := configDir ++ ["packages", pkg]
  if pathExists fs1 pkgFile then
    let fs2 := loadConfig (getConfigDir fs1 configDir) configDir
    let fs3 := lines.foldl removeLine fs2
    (fs3.rmFile pkgFile, none)
  else (fs1, some .notInstalled)

/-- The state a failed or successful `install_tar` leaves behind. -/
def InstallResult.fsOf : InstallResult → FS
  | .err _ fs => fs
  | .ok fs _ => fs

/-- The manifest lines of a successful `install_tar` (empty on error). -/
def InstallResult.manifestOf : InstallResult → List Path
  | .err _ _ => []
  | .ok _ m => m

/-- Whether `install_tar` ran to completion. -/
def InstallResult.isOk : InstallResult → Bool
  | .err _ _ => false
  | .ok _ _ => true

/-- Well-formedness of a filesystem snapshot: every nonempty file or
directory path has its parent among the directories. -/
def FS.ParentClosed (fs : FS) : Prop :=
  (∀ p ∈ fs.files, p ≠ [] → p.dropLast ∈ fs.dirs) ∧
    (∀ d ∈ fs.dirs, d ≠ [] → d.dropLast ∈ fs.dirs)

/-! ### Basic lemmas about the filesystem primitives -/

theorem mem_insertP {l : List Path} {p q : Path} :
    q ∈ insertP l p ↔ q ∈ l ∨ q = p := by
  unfold insertP
  split
  · next h =>
    constructor
    · exact fun hq => Or.inl hq
    · rintro (hq | rfl)
      · exact hq
      · exact h
  · simp

theorem mem_of_mem_insertP {l : List Path} {p q : Path} (h : q ∈ l) :
    q ∈ insertP l p := mem_insertP.mpr (Or.inl h)

theorem mem_foldl_insertP {ls : List Path} {l : List Path} {q : Path} :
    q ∈ ls.foldl insertP l ↔ q ∈ l ∨ q ∈ ls := by
  induction ls generalizing l with
  | nil => simp
  | cons a as ih =>
    simp only [List.foldl_cons, ih, mem_insertP, List.mem_cons]
    tauto

theorem mem_ancestors {d q : Path} :
    q ∈ ancestors d ↔ q ≠ [] ∧ q <+: d := by
  unfold ancestors
  simp only [List.mem_map, List.mem_range]
  constructor
  · rintro ⟨i, hi, rfl⟩
    refine ⟨?_, List.take_prefix _ _⟩
    have : (d.take (i + 1)).length = i + 1 := by
      rw [List.length_take]
      omega
    intro hnil
    rw [hnil] at this
    simp at this
  · rintro ⟨hne, hpre⟩
    have hlen : 0 < q.length := List.length_pos.mpr hne
    have hle : q.length ≤ d.length := hpre.length_le
    refine ⟨q.length - 1, by omega, ?_⟩
    have : q.length - 1 + 1 = q.length := by omega
    rw [this, ← List.prefix_iff_eq_take.mp hpre]

theorem dirs_mkdirAll {fs : FS} {d q : Path} :
    q ∈ (fs.mkdirAll d).dirs ↔ q ∈ fs.dirs ∨ (q ≠ [] ∧ q <+: d) := by
  simp [FS.mkdirAll, mem_foldl_insertP, mem_ancestors]

theorem files_mkdirAll {fs : FS} {d : Path} : (fs.mkdirAll d).files = fs.files := rfl

theorem files_writeFile {fs : FS} {p q : Path} :
    q ∈ (fs.writeFile p).files ↔ q ∈ fs.files ∨ q = p := by
  simp [FS.writeFile, mem_insertP]

theorem dirs_writeFile {fs : FS} {p : Path} : (fs.writeFile p).dirs = fs.dirs := rfl

theorem files_rmFile {fs : FS} {p q : Path} :
    q ∈ (fs.rmFile p).files ↔ q ∈ fs.files ∧ q ≠ p := by
  simp [FS.rmFile, List.mem_filter]

theorem dirs_rmFile {fs : FS} {p : Path} : (fs.rmFile p).dirs = fs.dirs := rfl

theorem files_rmDir {fs : FS} {d : Path} : (fs.rmDir d).files = fs.files := rfl

theorem dirs_rmDir {fs : FS} {d q : Path} :
    q ∈ (fs.rmDir d).dirs ↔ q ∈ fs.dirs ∧ q ≠ d := by
  simp [FS.rmDir, List.mem_filter]

theorem isDirEmpty_eq_false_iff {fs : FS} {d : Path} :
    isDirEmpty fs d = false ↔
      ∃ x, (x ∈ fs.files ∨ x ∈ fs.dirs) ∧ x.dropLast = d ∧ x ≠ d := by
  simp only [isDirEmpty, Bool.not_eq_false', List.any_eq_true, List.mem_append,
    Bool.and_eq_true, decide_eq_true_eq]

theorem isDirEmpty_eq_true_iff {fs : FS} {d : Path} :
    isDirEmpty fs d = true ↔
      ∀ x, (x ∈ fs.files ∨ x ∈ fs.dirs) → x.dropLast = d → x = d := by
  constructor
  · intro h x hx h1
    by_contra hne
    have hf : isDirEmpty fs d = false := isDirEmpty_eq_false_iff.mpr ⟨x, hx, h1, hne⟩
    rw [h] at hf
    exact Bool.noConfusion hf
  · intro h
    by_contra hne
    rw [Bool.not_eq_true] at hne
    obtain ⟨x, hx, h1, h2⟩ := isDirEmpty_eq_false_iff.mp hne
    exact h2 (h x hx h1)

/-! ### Path normalization lemmas -/

theorem foldl_normStep_no_dots {l : List String} (h : ∀ c ∈ l, c ≠ "." ∧ c ≠ "..") :
    ∀ acc : Path, l.foldl normStep acc = acc ++ l := by
  induction l with
  | nil => intro acc; simp
  | cons c cs ih =>
    intro acc
    have hc := h c (List.mem_cons_self c cs)
    have hcs : ∀ x ∈ cs, x ≠ "." ∧ x ≠ ".." := fun x hx => h x (List.mem_cons_of_mem c hx)
    have hstep : normStep acc c = acc ++ [c] := by
      simp [normStep, hc.1, hc.2]
    rw [List.foldl_cons, hstep, ih hcs]
    simp

theorem isPre_foldl_normStep {p : List String} (h : ".." ∉ p) :
    ∀ acc : Path, acc <+: p.foldl normStep acc := by
  induction p with
  | nil => intro acc; simp
  | cons c cs ih =>
    intro acc
    have hc : c ≠ ".." := by
      intro hx
      subst hx
      exact h (List.mem_cons_self _ _)
    have hcs : ".." ∉ cs := fun hx => h (List.mem_cons_of_mem c hx)
    by_cases hdot : c = "."
    · have hstep : normStep acc c = acc := by simp [normStep, hdot]
      rw [List.foldl_cons, hstep]
      exact ih hcs acc
    · have hstep : normStep acc c = acc ++ [c] := by simp [normStep, hdot, hc]
      rw [List.foldl_cons, hstep]
      exact List.IsPrefix.trans (List.prefix_append acc [c]) (ih hcs (acc ++ [c]))

/-! ### Claim C1 -/

/-- Claim C1 as stated is false on the code: the archive entry path
`bin/../../evil` is accepted by the Path Mapper (its first component is
`bin`), yet its computed destination under install root `/opt` normalizes
to `/evil`, which is outside the install root's tree. -/
theorem C1_counterexample :
    accepted (stripPkg "pkg" ["bin", "..", "..", "evil"]) = true ∧
      destPath ["opt"] (stripPkg "pkg" ["bin", "..", "..", "evil"]) = ["evil"] ∧
      ¬ ["opt"] <+: destPath ["opt"] (stripPkg "pkg" ["bin", "..", "..", "evil"]) := by
  decide

/-- Claim C1, amended: for an accepted entry whose path contains no `..`
component, the computed destination (the install root joined with the path,
then normalized) stays inside the install root's tree, provided the
configured install root is itself in normal form (free of `.` and `..`
components).  Entries containing `..` can escape (`C1_counterexample`). -/
theorem C1_no_escape_without_dotdot (root p : Path)
    (hroot : ∀ c ∈ root, c ≠ "." ∧ c ≠ "..") (hp : ".." ∉ p)
    (hacc : accepted p = true) :
    root <+: destPath root p := by
  have hroot_eq : root.foldl normStep [] = root := by
    rw [foldl_normStep_no_dots hroot]
    simp
  unfold destPath normalize
  rw [List.foldl_append, hroot_eq]
  exact isPre_foldl_normStep hp root

theorem C1_witness :
    (∀ c ∈ (["opt"] : Path), c ≠ "." ∧ c ≠ "..") ∧ ".." ∉ (["bin", "x"] : Path) ∧
      accepted ["bin", "x"] = true ∧ ["opt"] <+: destPath ["opt"] ["bin", "x"] :=
  ⟨by decide, by decide, by decide,
    C1_no_escape_without_dotdot ["opt"] ["bin", "x"] (by decide) (by decide) (by decide)⟩

/-! ### Claim C9 -/

/-- Claim C9: the category eligibility test matches whole path components.
A path is accepted exactly when its first component is equal, as a string,
to one of the five category names; in particular `binary/tool` and
`libexec/x` are rejected even though their first components begin with
`bin` and `lib` as strings. -/
theorem C9_whole_component_match :
    (∀ c rest, accepted (c :: rest) = true ↔
        (c = "bin" ∨ c = "etc" ∨ c = "include" ∨ c = "lib" ∨ c = "share")) ∧
      accepted ["binary", "tool"] = false ∧ accepted ["libexec", "x"] = false := by
  refine ⟨fun c rest => ?_, by decide, by decide⟩
  simp only [accepted, startsWithComp, Bool.or_eq_true, decide_eq_true_eq]
  tauto

/-! ### Claim C5 -/

theorem stepEntry_skip {pkg : String} {root : Path} {cwdDirs : List Path}
    {st : FS × List Path} {e : Entry} (h : accepted (stripPkg pkg e.path) = false) :
    stepEntry pkg root cwdDirs st e = st := by
  simp [stepEntry, h]

theorem foldl_stepEntry_filter (pkg : String) (root : Path) (cwdDirs : List Path)
    (st : FS × List Path) (entries : List Entry) :
    entries.foldl (stepEntry pkg root cwdDirs) st =
      (entries.filter (fun e => accepted (stripPkg pkg e.path))).foldl
        (stepEntry pkg root cwdDirs) st := by
  induction entries generalizing st with
  | nil => rfl
  | cons e es ih =>
    by_cases h : accepted (stripPkg pkg e.path) = true
    · rw [List.foldl_cons, List.filter_cons_of_pos (by simpa using h), List.foldl_cons, ih]
    · rw [Bool.not_eq_true] at h
      rw [List.foldl_cons, stepEntry_skip h, List.filter_cons_of_neg (by simp [h]), ih]

/-- Claim C5: archive entries whose mapped path (after the package-name
stripping step) does not begin with a category name have no effect at all:
`install_tar` computes the same final state and the same manifest on the
archive as on the archive restricted to its accepted entries. -/
theorem C5_skipped_entries_no_effect (fileName : List Char) (entries : List Entry)
    (configDir root : Path) (cwdDirs : List Path) (fs : FS) :
    installTar fileName entries configDir root cwdDirs fs =
      installTar fileName
        (entries.filter (fun e =>
          accepted (stripPkg (String.mk (pkgNameOf fileName)) e.path)))
        configDir root cwdDirs fs := by
  unfold installTar
  split
  · dsimp only
    split
    · split
      · rfl
      · rw [foldl_stepEntry_filter]
    · split
      · rfl
      · rw [foldl_stepEntry_filter]
  · rfl

/-! ### Claim C8 -/

/-- Claim C8: `install_tar` fails with `InvalidArchiveName`, leaving the
filesystem untouched, exactly when the archive file name does not end with
the literal, case-sensitive suffix `.tar.gz`; and when the suffix does
match, the derived package name is the file name with that 7-character
suffix stripped (it re-forms the file name when the suffix is appended). -/
theorem C8_suffix_check_and_name (fileName : List Char) (entries : List Entry)
    (configDir root : Path) (cwdDirs : List Path) (fs : FS) :
    (installTar fileName entries configDir root cwdDirs fs =
        .err .invalidArchiveName fs ↔ tarGzSuffix.isSuffixOf fileName = false)
    ∧ (tarGzSuffix.isSuffixOf fileName = true →
        pkgNameOf fileName ++ tarGzSuffix = fileName) := by
  constructor
  · constructor
    · intro h
      by_contra hsuf
      rw [Bool.not_eq_false] at hsuf
      unfold installTar at h
      rw [if_pos hsuf] at h
      dsimp only at h
      split at h
      · split at h
        · injection h with h1 h2
          exact InstallErr.noConfusion h1
        · exact InstallResult.noConfusion h
      · split at h
        · injection h with h1 h2
          exact InstallErr.noConfusion h1
        · exact InstallResult.noConfusion h
    · intro hsuf
      unfold installTar
      rw [if_neg]
      rw [hsuf]
      simp
  · intro hsuf
    obtain ⟨t, ht⟩ := List.isSuffixOf_iff_suffix.mp hsuf
    subst ht
    unfold pkgNameOf
    have hlen : (t ++ tarGzSuffix).length - 7 = t.length := by
      have h7 : tarGzSuffix.length = 7 := rfl
      rw [List.length_append, h7]
      omega
    rw [hlen, List.take_left]

theorem C8_witness :
    installTar "foo.txt".toList [] [] [] [] ⟨[], []⟩ = .err .invalidArchiveName ⟨[], []⟩ ∧
      pkgNameOf "foo.tar.gz".toList ++ tarGzSuffix = "foo.tar.gz".toList :=
  ⟨(C8_suffix_check_and_name "foo.txt".toList [] [] [] [] ⟨[], []⟩).1.mpr (by decide),
    (C8_suffix_check_and_name "foo.tar.gz".toList [] [] [] [] ⟨[], []⟩).2 (by decide)⟩

/-! ### Claim C10 -/

theorem pathExists_addDir_self (fs : FS) (d : Path) :
    pathExists (fs.addDir d) d = true := by
  simp [pathExists, FS.addDir, mem_insertP]

/-- Claim C10: for an archive file named exactly `.tar.gz` the suffix check
passes and the package name is empty, so the manifest path names the
packages directory itself, which is ensured to exist right before the
existence check: the install always fails with `AlreadyInstalled`; the only
possible change is the creation of the missing packages directory, and no
file is created anywhere.  (The hypothesis records that the packages path
is not occupied by a regular file: `Path::exists()` on the trailing-slash
path `packages/` produced by `join("")` can only see a directory.) -/
theorem C10_empty_name_always_already_installed (entries : List Entry)
    (configDir root : Path) (cwdDirs : List Path) (fs : FS)
    (hnotfile : configDir ++ ["packages"] ∉ fs.files) :
    installTar ".tar.gz".toList entries configDir root cwdDirs fs =
        .err .alreadyInstalled
          (if pathExists fs (configDir ++ ["packages"]) then fs
            else fs.addDir (configDir ++ ["packages"])) ∧
      (if pathExists fs (configDir ++ ["packages"]) then fs
        else fs.addDir (configDir ++ ["packages"])).files = fs.files := by
  have hsuf : tarGzSuffix.isSuffixOf ".tar.gz".toList = true := by decide
  have hpkg : pkgNameOf ".tar.gz".toList = [] := by decide
  have hman : manifestPath configDir (pkgNameOf ".tar.gz".toList) =
      configDir ++ ["packages"] := by
    rw [hpkg]
    simp [manifestPath]
  constructor
  · unfold installTar
    rw [if_pos hsuf]
    dsimp only
    rw [hman]
    by_cases hex : pathExists fs (configDir ++ ["packages"]) = true
    · rw [if_pos hex, if_pos hex]
    · rw [if_neg hex, if_pos (pathExists_addDir_self fs (configDir ++ ["packages"]))]
  · split
    · rfl
    · rfl

theorem C10_witness :
    (["h", "c", "packages"] ∉ (⟨[], [[]]⟩ : FS).files) ∧
      installTar ".tar.gz".toList [] ["h", "c"] ["opt"] [] ⟨[], [[]]⟩ =
        .err .alreadyInstalled
          (if pathExists ⟨[], [[]]⟩ (["h", "c"] ++ ["packages"]) then (⟨[], [[]]⟩ : FS)
            else FS.addDir ⟨[], [[]]⟩ (["h", "c"] ++ ["packages"])) :=
  ⟨by decide,
    (C10_empty_name_always_already_installed [] ["h", "c"] ["opt"] [] ⟨[], [[]]⟩
      (by decide)).1⟩

/-! ### Claim C6 -/

/-- Claim C6: when the package's manifest file already exists, `install_tar`
fails with `AlreadyInstalled` and the filesystem is returned exactly as it
was: the check precedes every file creation, so a conflicting install is a
no-op on disk.  `FS.ParentClosed` states filesystem well-formedness (every
existing path's parent directory exists), which grounds the fact that the
packages directory need not be created when a manifest inside it exists. -/
theorem C6_already_installed_no_op (fileName : List Char) (entries : List Entry)
    (configDir root : Path) (cwdDirs : List Path) (fs : FS)
    (hsuf : tarGzSuffix.isSuffixOf fileName = true)
    (hman : manifestPath configDir (pkgNameOf fileName) ∈ fs.files)
    (hfs : fs.ParentClosed) :
    installTar fileName entries configDir root cwdDirs fs =
      .err .alreadyInstalled fs := by
  have hpkgdir : pathExists fs (configDir ++ ["packages"]) = true := by
    by_cases hp : pkgNameOf fileName = []
    · rw [hp] at hman
      unfold manifestPath at hman
      rw [if_pos rfl, List.append_nil] at hman
      simp [pathExists, hman]
    · have hne : manifestPath configDir (pkgNameOf fileName) ≠ [] := by
        unfold manifestPath
        rw [if_neg hp]
        simp
      have hdrop : (manifestPath configDir (pkgNameOf fileName)).dropLast =
          configDir ++ ["packages"] := by
        unfold manifestPath
        rw [if_neg hp]
        exact List.dropLast_concat
      have hmem := hfs.1 _ hman hne
      rw [hdrop] at hmem
      simp [pathExists, hmem]
  have hmanex : pathExists fs (manifestPath configDir (pkgNameOf fileName)) = true := by
    simp [pathExists, hman]
  unfold installTar
  rw [if_pos hsuf]
  dsimp only
  rw [if_pos hpkgdir, if_pos hmanex]

theorem C6_witness :
    installTar "foo.tar.gz".toList [] ["h", "c"] ["opt"] []
        ⟨[["h", "c", "packages", "foo"]], [[], ["h"], ["h", "c"], ["h", "c", "packages"]]⟩ =
      .err .alreadyInstalled
        ⟨[["h", "c", "packages", "foo"]], [[], ["h"], ["h", "c"], ["h", "c", "packages"]]⟩ :=
  C6_already_installed_no_op "foo.tar.gz".toList [] ["h", "c"] ["opt"] [] _
    (by decide) (by decide) (by exact ⟨by decide, by decide⟩)

/-! ### Claim C2 -/

/-- A small well-formed starting state: the config area exists and the
install root `/opt` carries the five category directories. -/
def demoFS : FS :=
  { files := [["h", "c", "instar.cfg"]],
    dirs := [[], ["opt"], ["opt", "bin"], ["opt", "etc"], ["opt", "include"],
      ["opt", "lib"], ["opt", "share"], ["h"], ["h", "c"], ["h", "c", "packages"]] }

/-- Claim C2 is right about the intent but the code has a slip: line 150
computes `is_dir` as `path.is_dir()`, a query of the real filesystem at the
archive-relative path (resolved against the process working directory),
not the tar entry's type flag.  Installing an archive that contains the
directory entry `bin/` from a working directory with no `./bin` therefore
takes the non-directory branch: the destination `/opt/bin` is appended to
the manifest, and unpacking the directory entry creates it as a directory,
so a successful install leaves a manifest line that denotes a directory. -/
theorem C2_dir_entry_recorded_in_manifest :
    (installTar "p.tar.gz".toList [⟨["bin"], true⟩] ["h", "c"] ["opt"] [] demoFS).isOk
        = true ∧
      (installTar "p.tar.gz".toList [⟨["bin"], true⟩] ["h", "c"] ["opt"] [] demoFS).manifestOf
        = [["opt", "bin"]] ∧
      ["opt", "bin"] ∈
        (installTar "p.tar.gz".toList [⟨["bin"], true⟩] ["h", "c"] ["opt"] [] demoFS).fsOf.dirs ∧
      ["opt", "bin"] ∉
        (installTar "p.tar.gz".toList [⟨["bin"], true⟩] ["h", "c"] ["opt"] [] demoFS).fsOf.files := by
  decide

/-! ### Claim C7 -/

/-- Claim C7 as stated is false on the code: `remove` first calls
`get_config_dir`, which creates the missing configuration directory, and
only then discovers that the package is not installed — a filesystem
mutation despite the `NotInstalled` failure. -/
theorem C7_counterexample :
    (removePkg "p" [] ["h", "c"] ⟨[], [[]]⟩).2 = some .notInstalled ∧
      ["h", "c"] ∈ (removePkg "p" [] ["h", "c"] ⟨[], [[]]⟩).1.dirs ∧
      ["h", "c"] ∉ (⟨[], [[]]⟩ : FS).dirs := by
  decide

/-- Claim C7, amended: removing a package with no manifest file fails with
`NotInstalled`; the only filesystem mutation is the creation of the missing
configuration directory (with its ancestors) by `get_config_dir` — no file
is ever created or deleted, and when the configuration directory already
exists the filesystem is not touched at all. -/
theorem C7_not_installed_no_mutation (pkg : String) (lines : List Path)
    (configDir : Path) (fs : FS)
    (h : pathExists (getConfigDir fs configDir) (configDir ++ ["packages", pkg]) = false) :
    removePkg pkg lines configDir fs = (getConfigDir fs configDir, some .notInstalled) ∧
      (getConfigDir fs configDir).files = fs.files ∧
      (pathExists fs configDir = true → getConfigDir fs configDir = fs) := by
  refine ⟨?_, ?_, ?_⟩
  · unfold removePkg
    dsimp only
    rw [if_neg]
    rw [h]
    simp
  · unfold getConfigDir
    split
    · rfl
    · rfl
  · intro hex
    unfold getConfigDir
    rw [if_pos hex]

theorem C7_witness :
    removePkg "p" [] ["h", "c"] ⟨[], [[]]⟩ =
      (getConfigDir ⟨[], [[]]⟩ ["h", "c"], some .notInstalled) :=
  (C7_not_installed_no_mutation "p" [] ["h", "c"] ⟨[], [[]]⟩ (by decide)).1

/-! ### Claim C4 -/

theorem prune_keeps_cat_dirs (fs : FS) (q : Path) (d : Path) (n : String)
    (hlast : d.getLast? = some n) (hcat : n ∈ catNames) :
    d ∈ fs.dirs → d ∈ (prune fs q).dirs := by
  induction fs, q using prune.induct with
  | case1 fs q hemp hnone =>
    intro hmem
    rw [prune.eq_def, if_pos hemp]
    split
    · exact hmem
    · rename_i name2 heq
      rw [hnone] at heq
      exact Option.noConfusion heq
  | case2 fs q hemp name hsome hc =>
    intro hmem
    rw [prune.eq_def, if_pos hemp]
    split
    · exact hmem
    · rename_i name2 heq
      rw [hsome] at heq
      injection heq with he
      subst he
      rw [if_pos hc]
      exact hmem
  | case3 fs q hemp name hsome hc ih =>
    intro hmem
    rw [prune.eq_def, if_pos hemp]
    split
    · exact hmem
    · rename_i name2 heq
      rw [hsome] at heq
      injection heq with he
      subst he
      rw [if_neg hc]
      apply ih
      rw [dirs_rmDir]
      refine ⟨hmem, ?_⟩
      rintro rfl
      rw [hsome] at hlast
      injection hlast with h1
      rw [h1] at hc
      exact hc hcat
  | case4 fs q hemp =>
    intro hmem
    rw [prune.eq_def, if_neg hemp]
    exact hmem

theorem removeLine_keeps_cat_dirs (fs : FS) (p : Path) (d : Path) (n : String)
    (hlast : d.getLast? = some n) (hcat : n ∈ catNames) :
    d ∈ fs.dirs → d ∈ (removeLine fs p).dirs := by
  intro hmem
  unfold removeLine
  split
  · exact hmem
  · apply prune_keeps_cat_dirs _ _ _ _ hlast hcat
    rw [dirs_rmFile]
    exact hmem

theorem foldl_removeLine_keeps_cat_dirs (lines : List Path) (fs : FS) (d : Path)
    (n : String) (hlast : d.getLast? = some n) (hcat : n ∈ catNames) :
    d ∈ fs.dirs → d ∈ (lines.foldl removeLine fs).dirs := by
  induction lines generalizing fs with
  | nil => exact fun h => h
  | cons p ps ih =>
    intro hmem
    rw [List.foldl_cons]
    exact ih _ (removeLine_keeps_cat_dirs fs p d n hlast hcat hmem)

theorem dirs_loadConfig (fs : FS) (configDir : Path) :
    (loadConfig fs configDir).dirs = fs.dirs := by
  unfold loadConfig
  split
  · rfl
  · rfl

theorem dirs_getConfigDir_keep (fs : FS) (configDir : Path) {d : Path}
    (hmem : d ∈ fs.dirs) : d ∈ (getConfigDir fs configDir).dirs := by
  unfold getConfigDir
  split
  · exact hmem
  · exact dirs_mkdirAll.mpr (Or.inl hmem)

/-- Claim C4: removal never deletes a directory whose final component is a
category name: if such a directory (in particular a category root directly
under the install root) exists before `remove` runs, it still exists after,
whether the operation succeeds or fails — the upward-walking prune checks
the name before every directory deletion, and nothing else deletes
directories. -/
theorem C4_category_roots_survive (pkg : String) (lines : List Path)
    (configDir : Path) (fs : FS) (d : Path) (n : String)
    (hmem : d ∈ fs.dirs) (hlast : d.getLast? = some n) (hcat : n ∈ catNames) :
    d ∈ (removePkg pkg lines configDir fs).1.dirs := by
  have h1 : d ∈ (getConfigDir fs configDir).dirs := dirs_getConfigDir_keep fs configDir hmem
  unfold removePkg
  dsimp only
  split
  · rw [dirs_rmFile]
    apply foldl_removeLine_keeps_cat_dirs lines _ d n hlast hcat
    rw [dirs_loadConfig]
    exact dirs_getConfigDir_keep _ configDir h1
  · exact h1

theorem C4_witness :
    ["opt", "bin"] ∈
      (removePkg "p" [["opt", "bin", "x"]] ["h", "c"]
        ⟨[["h", "c", "packages", "p"], ["opt", "bin", "x"]],
          [[], ["opt"], ["opt", "bin"], ["h"], ["h", "c"], ["h", "c", "packages"]]⟩).1.dirs :=
  C4_category_roots_survive "p" [["opt", "bin", "x"]] ["h", "c"] _ ["opt", "bin"] "bin"
    (by decide) (by decide) (by decide)

/-! ### Claim C3 -/

/-- Two filesystem snapshots holding the same files and the same
directories (the lists enumerate sets; order and duplication are
irrelevant to the filesystem they denote). -/
def FS.Same (a b : FS) : Prop :=
  (∀ p, p ∈ a.files ↔ p ∈ b.files) ∧ (∀ q, q ∈ a.dirs ↔ q ∈ b.dirs)

/-- `demoFS` with one pre-existing, empty package-specific directory
`/opt/lib/mylib`. -/
def preFS : FS :=
  { files := [["h", "c", "instar.cfg"]],
    dirs := [[], ["opt"], ["opt", "bin"], ["opt", "etc"], ["opt", "include"],
      ["opt", "lib"], ["opt", "share"], ["opt", "lib", "mylib"], ["h"], ["h", "c"],
      ["h", "c", "packages"]] }

/-- The destination file of the `C3_counterexample` archive entry. -/
def c3dest : Path := ["opt", "lib", "mylib", "f"]

/-- The state `C3_counterexample`'s install leaves: the manifest file and
the destination file added to `preFS`. -/
def c3fsI : FS :=
  { files := [["h", "c", "instar.cfg"], ["h", "c", "packages", "q"], c3dest],
    dirs := preFS.dirs }

/-- The state of `C3_counterexample` after the prune walk: the pre-existing
directory `/opt/lib/mylib` is gone. -/
def c3fsB : FS :=
  { files := [["h", "c", "instar.cfg"], ["h", "c", "packages", "q"]],
    dirs := [[], ["opt"], ["opt", "bin"], ["opt", "etc"], ["opt", "include"],
      ["opt", "lib"], ["opt", "share"], ["h"], ["h", "c"], ["h", "c", "packages"]] }

/-- Claim C3 as stated is false on the code: install archive `q.tar.gz`
holding the single regular-file entry `lib/mylib/f` into a tree where
`/opt/lib/mylib` already exists as an empty directory.  Install writes
`/opt/lib/mylib/f`; remove deletes that file and then prunes the now-empty
`/opt/lib/mylib` — a directory that predates the install — so the category
directories are not left exactly in their prior state. -/
theorem C3_counterexample :
    (installTar "q.tar.gz".toList [⟨["lib", "mylib", "f"], false⟩]
        ["h", "c"] ["opt"] [] preFS).isOk = true ∧
      (removePkg "q"
        (installTar "q.tar.gz".toList [⟨["lib", "mylib", "f"], false⟩]
          ["h", "c"] ["opt"] [] preFS).manifestOf
        ["h", "c"]
        (installTar "q.tar.gz".toList [⟨["lib", "mylib", "f"], false⟩]
          ["h", "c"] ["opt"] [] preFS).fsOf).2 = none ∧
      ["opt", "lib", "mylib"] ∈ preFS.dirs ∧
      ["opt", "lib", "mylib"] ∉
        (removePkg "q"
          (installTar "q.tar.gz".toList [⟨["lib", "mylib", "f"], false⟩]
            ["h", "c"] ["opt"] [] preFS).manifestOf
          ["h", "c"]
          (installTar "q.tar.gz".toList [⟨["lib", "mylib", "f"], false⟩]
            ["h", "c"] ["opt"] [] preFS).fsOf).1.dirs := by
  have hI : installTar "q.tar.gz".toList [⟨["lib", "mylib", "f"], false⟩]
      ["h", "c"] ["opt"] [] preFS = .ok c3fsI [c3dest] := by decide
  have hrfl : removePkg "q" [c3dest] ["h", "c"] c3fsI =
      ((prune (c3fsI.rmFile c3dest) ["opt", "lib", "mylib"]).rmFile
        ["h", "c", "packages", "q"], none) := rfl
  have hp : prune (c3fsI.rmFile c3dest) ["opt", "lib", "mylib"] = c3fsB := by
    rw [prune.eq_def, prune.eq_def]
    decide
  refine ⟨?_, ?_, by decide, ?_⟩
  · rw [hI]
    rfl
  · rw [hI]
    show (removePkg "q" [c3dest] ["h", "c"] c3fsI).2 = none
    rw [hrfl]
  · rw [hI]
    show ["opt", "lib", "mylib"] ∉ (removePkg "q" [c3dest] ["h", "c"] c3fsI).1.dirs
    rw [hrfl]
    dsimp only
    rw [hp]
    decide

theorem files_prune (fs : FS) (q : Path) : (prune fs q).files = fs.files := by
  induction fs, q using prune.induct with
  | case1 fs q hemp hnone =>
    rw [prune.eq_def, if_pos hemp]
    split
    · rfl
    · rename_i name2 heq
      rw [hnone] at heq
      exact Option.noConfusion heq
  | case2 fs q hemp name hsome hc =>
    rw [prune.eq_def, if_pos hemp]
    split
    · rfl
    · rename_i name2 heq
      rw [hsome] at heq
      injection heq with he
      subst he
      rw [if_pos hc]
  | case3 fs q hemp name hsome hc ih =>
    rw [prune.eq_def, if_pos hemp]
    split
    · rfl
    · rename_i name2 heq
      rw [hsome] at heq
      injection heq with he
      subst he
      rw [if_neg hc]
      exact ih
  | case4 fs q hemp =>
    rw [prune.eq_def, if_neg hemp]

theorem destPath_no_dots {root p : Path}
    (hroot : ∀ c ∈ root, c ≠ "." ∧ c ≠ "..") (hp : ∀ c ∈ p, c ≠ "." ∧ c ≠ "..") :
    destPath root p = root ++ p := by
  unfold destPath normalize
  have hall : ∀ c ∈ root ++ p, c ≠ "." ∧ c ≠ ".." := by
    intro c hc
    rcases List.mem_append.mp hc with h | h
    · exact hroot c h
    · exact hp c h
  rw [foldl_normStep_no_dots hall]
  simp

/-- Conditions on one archive entry of a cleanly round-tripping archive: a
regular-file tar entry, not shadowed by a directory at the working
directory (so line 150 classifies it as non-directory), accepted by the
mapper, and with a `.`/`..`-free mapped path. -/
def CleanEntry (pkg : String) (cwdDirs : List Path) (e : Entry) : Prop :=
  e.isDirEntry = false ∧ e.path ∉ cwdDirs ∧
    accepted (stripPkg pkg e.path) = true ∧
    ∀ c ∈ stripPkg pkg e.path, c ≠ "." ∧ c ≠ ".."

theorem stepEntry_clean {pkg : String} {root : Path} {cwdDirs : List Path}
    {st : FS × List Path} {e : Entry}
    (hroot : ∀ c ∈ root, c ≠ "." ∧ c ≠ "..") (he : CleanEntry pkg cwdDirs e) :
    stepEntry pkg root cwdDirs st e =
      (st.1.writeFile (root ++ stripPkg pkg e.path),
        st.2 ++ [root ++ stripPkg pkg e.path]) := by
  obtain ⟨h1, h2, h3, h4⟩ := he
  unfold stepEntry
  dsimp only
  rw [if_pos h3, if_neg (by simpa using h2), h1]
  rw [destPath_no_dots hroot h4]
  simp

theorem install_fold_spec {pkg : String} {root : Path} {cwdDirs : List Path}
    (hroot : ∀ c ∈ root, c ≠ "." ∧ c ≠ "..") :
    ∀ (es : List Entry), (∀ e ∈ es, CleanEntry pkg cwdDirs e) →
      ∀ (fs : FS) (acc : List Path),
        es.foldl (stepEntry pkg root cwdDirs) (fs, acc) =
          ((es.map (fun e => root ++ stripPkg pkg e.path)).foldl FS.writeFile fs,
            acc ++ es.map (fun e => root ++ stripPkg pkg e.path)) := by
  intro es
  induction es with
  | nil =>
    intro _ fs acc
    simp
  | cons e es ih =>
    intro h fs acc
    rw [List.foldl_cons, stepEntry_clean hroot (h e (List.mem_cons_self e es)),
      List.map_cons, List.foldl_cons,
      ih (fun x hx => h x (List.mem_cons_of_mem e hx))]
    simp

theorem files_writeFold {ds : List Path} {fs : FS} {p : Path} :
    p ∈ (ds.foldl FS.writeFile fs).files ↔ p ∈ fs.files ∨ p ∈ ds := by
  induction ds generalizing fs with
  | nil => simp
  | cons d ds ih =>
    rw [List.foldl_cons, ih, files_writeFile, List.mem_cons]
    tauto

theorem dirs_writeFold {ds : List Path} {fs : FS} :
    (ds.foldl FS.writeFile fs).dirs = fs.dirs := by
  induction ds generalizing fs with
  | nil => rfl
  | cons d ds ih =>
    rw [List.foldl_cons, ih, dirs_writeFile]

/-- The conditions letting one installed file round-trip cleanly: the
destination is fresh (neither a file nor a directory of the original
tree); it lies at least two levels below the install root; its parent
directory already exists before the install — `Entry::unpack` creates no
missing parents, so this is exactly the condition under which extraction
succeeds instead of panicking — and that parent is either a category root
`root ++ [c]` (which the prune walk never deletes) or holds at least one
other pre-existing occupant, so that it never becomes empty and the prune
walk stops at once. -/
def GoodDest (fs0 : FS) (root : Path) (d : Path) : Prop :=
  d ∉ fs0.files ∧ d ∉ fs0.dirs ∧ root.length + 2 ≤ d.length ∧
    d.dropLast ∈ fs0.dirs ∧
    ((∃ c ∈ catNames, d.dropLast = root ++ [c]) ∨
      ∃ x ∈ fs0.files ++ fs0.dirs, x.dropLast = d.dropLast)

/-- When the just-deleted destination satisfies `GoodDest`, the prune walk
stops at its very first step and deletes nothing: the parent directory is
either a category root (the name check fires before any deletion) or still
holds another pre-existing occupant (so it is not empty). -/
theorem prune_stop (fs0 : FS) (root : Path) (d : Path) (hd : GoodDest fs0 root d)
    (g : FS) (hf : ∀ x ∈ fs0.files, x ∈ g.files)
    (hdir : ∀ q, q ∈ g.dirs ↔ q ∈ fs0.dirs) :
    prune g d.dropLast = g := by
  rcases hd.2.2.2.2 with ⟨c, hc, hceq⟩ | ⟨x, hx, hxdl⟩
  · rw [prune.eq_def]
    split
    · split
      · rfl
      · rename_i name2 heq
        rw [hceq, List.getLast?_concat root] at heq
        injection heq with h1
        rw [if_pos (by rw [← h1]; exact hc)]
    · rfl
  · have hwlen : 0 < d.dropLast.length := by
      rw [List.length_dropLast]
      have := hd.2.2.1
      omega
    have hxne : x ≠ d.dropLast := by
      intro hEq
      have h1 : x.dropLast = x := by rw [hxdl, ← hEq]
      have h2 := congrArg List.length h1
      rw [List.length_dropLast] at h2
      have hxpos : 0 < x.length := by rw [hEq]; exact hwlen
      omega
    have hxmem : x ∈ g.files ∨ x ∈ g.dirs := by
      rcases List.mem_append.mp hx with h | h
      · exact Or.inl (hf x h)
      · exact Or.inr ((hdir x).mpr h)
    have hfalse : isDirEmpty g d.dropLast = false :=
      isDirEmpty_eq_false_iff.mpr ⟨x, hxmem, hxdl, hxne⟩
    rw [prune.eq_def, if_neg (by rw [hfalse]; exact Bool.false_ne_true)]

/-- Effect of one remove-loop iteration on the filesystem, when the
deleted destination satisfies the clean-round-trip conditions: exactly
that one file disappears, and no directory is touched. -/
theorem removeLine_step (fs0 : FS) (root mp : Path) (d : Path) (R : List Path)
    (hd : GoodDest fs0 root d) (hdmp : d ≠ mp) (hdR : d ∉ R) (fs : FS)
    (hfiles : ∀ p, p ∈ fs.files ↔ p ∈ fs0.files ∨ p = mp ∨ p ∈ d :: R)
    (hdirs : ∀ q, q ∈ fs.dirs ↔ q ∈ fs0.dirs) :
    (∀ p, p ∈ (removeLine fs d).files ↔ p ∈ fs0.files ∨ p = mp ∨ p ∈ R) ∧
      (∀ q, q ∈ (removeLine fs d).dirs ↔ q ∈ fs0.dirs) := by
  have hdnotdirs : d ∉ fs.dirs := by
    rw [hdirs d]
    exact hd.2.1
  have hstep : removeLine fs d = prune (fs.rmFile d) d.dropLast := by
    unfold removeLine
    rw [if_neg hdnotdirs]
  have hfilesA : ∀ p, p ∈ (fs.rmFile d).files ↔ p ∈ fs0.files ∨ p = mp ∨ p ∈ R := by
    intro p
    rw [files_rmFile, hfiles p]
    constructor
    · rintro ⟨h | h | h, hne⟩
      · exact Or.inl h
      · exact Or.inr (Or.inl h)
      · rcases List.mem_cons.mp h with h1 | h1
        · exact absurd h1 hne
        · exact Or.inr (Or.inr h1)
    · rintro (h | h | h)
      · refine ⟨Or.inl h, ?_⟩
        rintro rfl
        exact hd.1 h
      · refine ⟨Or.inr (Or.inl h), ?_⟩
        rintro rfl
        exact hdmp h
      · refine ⟨Or.inr (Or.inr (List.mem_cons_of_mem d h)), ?_⟩
        rintro rfl
        exact hdR h
  have hdirsA : ∀ q, q ∈ (fs.rmFile d).dirs ↔ q ∈ fs0.dirs := by
    intro q
    rw [dirs_rmFile]
    exact hdirs q
  have hstop := prune_stop fs0 root d hd (fs.rmFile d)
    (fun x hx => (hfilesA x).mpr (Or.inl hx)) hdirsA
  rw [hstep, hstop]
  exact ⟨hfilesA, hdirsA⟩

/-- The whole remove loop deletes exactly the installed files and touches
no directory. -/
theorem fold_removeLine_spec (fs0 : FS) (root mp : Path) :
    ∀ (D : List Path) (fs : FS),
      (∀ x ∈ D, GoodDest fs0 root x) →
      (∀ x ∈ D, x ≠ mp) →
      D.Nodup →
      (∀ p, p ∈ fs.files ↔ p ∈ fs0.files ∨ p = mp ∨ p ∈ D) →
      (∀ q, q ∈ fs.dirs ↔ q ∈ fs0.dirs) →
      (∀ p, p ∈ (D.foldl removeLine fs).files ↔ p ∈ fs0.files ∨ p = mp) ∧
        (∀ q, q ∈ (D.foldl removeLine fs).dirs ↔ q ∈ fs0.dirs) := by
  intro D
  induction D with
  | nil =>
    intro fs _ _ _ hfiles hdirs
    refine ⟨fun p => ?_, fun q => ?_⟩
    · rw [List.foldl_nil, hfiles p]
      simp
    · rw [List.foldl_nil]
      exact hdirs q
  | cons d R ih =>
    intro fs hgood hmpne hnd hfiles hdirs
    rw [List.foldl_cons]
    have hndc := List.nodup_cons.mp hnd
    have hstep := removeLine_step fs0 root mp d R
      (hgood d (List.mem_cons_self d R)) (hmpne d (List.mem_cons_self d R))
      hndc.1 fs hfiles hdirs
    exact ih (removeLine fs d)
      (fun x hx => hgood x (List.mem_cons_of_mem d hx))
      (fun x hx => hmpne x (List.mem_cons_of_mem d hx))
      hndc.2 hstep.1 hstep.2

theorem getConfigDir_noop {fs : FS} {configDir : Path}
    (h : pathExists fs configDir = true) : getConfigDir fs configDir = fs := by
  unfold getConfigDir
  rw [if_pos h]

theorem loadConfig_noop {fs : FS} {configDir : Path}
    (h : pathExists fs (configDir ++ ["instar.cfg"]) = true) :
    loadConfig fs configDir = fs := by
  unfold loadConfig
  rw [if_pos h]

theorem manifestPath_cons {configDir : Path} {pkg : List Char} (h : pkg ≠ []) :
    manifestPath configDir pkg = configDir ++ ["packages", String.mk pkg] := by
  unfold manifestPath
  rw [if_neg h, List.append_assoc]
  rfl

/-- Core of the amended round trip: removing the package from the state
the install produced restores the original filesystem exactly. -/
theorem roundtrip_core (fs0 : FS) (configDir root : Path) (pkgName : List Char)
    (dests : List Path)
    (hpkg : pkgName ≠ [])
    (hcfg : configDir ∈ fs0.dirs)
    (hcfgfile : configDir ++ ["instar.cfg"] ∈ fs0.files)
    (hni_f : manifestPath configDir pkgName ∉ fs0.files)
    (hgood : ∀ x ∈ dests, GoodDest fs0 root x)
    (hmpne : ∀ x ∈ dests, x ≠ manifestPath configDir pkgName)
    (hnodup : dests.Nodup) :
    (removePkg (String.mk pkgName) dests configDir
        (dests.foldl FS.writeFile
          { files := insertP fs0.files (manifestPath configDir pkgName),
            dirs := fs0.dirs })).2 = none ∧
      FS.Same (removePkg (String.mk pkgName) dests configDir
        (dests.foldl FS.writeFile
          { files := insertP fs0.files (manifestPath configDir pkgName),
            dirs := fs0.dirs })).1 fs0 := by
  have hpkgfile : configDir ++ ["packages", String.mk pkgName] =
      manifestPath configDir pkgName := (manifestPath_cons hpkg).symm
  have hfilesI : ∀ p, p ∈ (dests.foldl FS.writeFile
      { files := insertP fs0.files (manifestPath configDir pkgName),
        dirs := fs0.dirs } : FS).files ↔
      p ∈ fs0.files ∨ p = manifestPath configDir pkgName ∨ p ∈ dests := by
    intro p
    rw [files_writeFold]
    show p ∈ insertP fs0.files (manifestPath configDir pkgName) ∨ p ∈ dests ↔ _
    rw [mem_insertP]
    tauto
  have hdirsI : ∀ q, q ∈ (dests.foldl FS.writeFile
      { files := insertP fs0.files (manifestPath configDir pkgName),
        dirs := fs0.dirs } : FS).dirs ↔ q ∈ fs0.dirs := by
    intro q
    rw [dirs_writeFold]
  have hpe_cfg : pathExists (dests.foldl FS.writeFile
      { files := insertP fs0.files (manifestPath configDir pkgName),
        dirs := fs0.dirs } : FS) configDir = true := by
    have h := (hdirsI configDir).mpr hcfg
    simp [pathExists, h]
  have hg1 := getConfigDir_noop hpe_cfg
  have hpe_mpI : pathExists (dests.foldl FS.writeFile
      { files := insertP fs0.files (manifestPath configDir pkgName),
        dirs := fs0.dirs } : FS) (configDir ++ ["packages", String.mk pkgName]) = true := by
    rw [hpkgfile]
    have h := (hfilesI (manifestPath configDir pkgName)).mpr (Or.inr (Or.inl rfl))
    simp [pathExists, h]
  have hload := @loadConfig_noop (dests.foldl FS.writeFile
      { files := insertP fs0.files (manifestPath configDir pkgName),
        dirs := fs0.dirs }) configDir (by
    have h := (hfilesI (configDir ++ ["instar.cfg"])).mpr (Or.inl hcfgfile)
    simp [pathExists, h])
  have hfold := fold_removeLine_spec fs0 root (manifestPath configDir pkgName)
    dests _ hgood hmpne hnodup hfilesI hdirsI
  have hrem : removePkg (String.mk pkgName) dests configDir
      (dests.foldl FS.writeFile
        { files := insertP fs0.files (manifestPath configDir pkgName),
          dirs := fs0.dirs }) =
      ((dests.foldl removeLine (dests.foldl FS.writeFile
        { files := insertP fs0.files (manifestPath configDir pkgName),
          dirs := fs0.dirs })).rmFile (configDir ++ ["packages", String.mk pkgName]),
        none) := by
    unfold removePkg
    dsimp only
    rw [hg1, if_pos hpe_mpI, hg1, hload]
  constructor
  · rw [hrem]
  · rw [hrem]
    dsimp only
    constructor
    · intro p
      rw [files_rmFile, hfold.1 p, hpkgfile]
      constructor
      · rintro ⟨h | h, hne⟩
        · exact h
        · exact absurd h hne
      · intro h
        refine ⟨Or.inl h, ?_⟩
        rintro rfl
        exact hni_f h
    · intro q
      rw [dirs_rmFile]
      exact hfold.2 q

/-- Claim C3, amended: install(A) followed by remove(A) restores the
filesystem exactly — same files and same directories, in particular the
category directories and their roots — provided the archive's accepted
entries are regular-file entries (with no directory of the same relative
path at the process working directory), their mapped paths are free of
`.`/`..`, their destinations are fresh, distinct, and different from the
manifest path, and each destination's parent directory already exists —
`Entry::unpack` creates no missing parents, so this also makes the
extraction succeed — and is either a category root or retains another
pre-existing occupant (`GoodDest`); the config area is present and the
package is not yet installed.  Without these restrictions the round trip
fails (`C3_counterexample`): the prune walk deletes a pre-existing
directory that an installed file left empty. -/
theorem C3_roundtrip_restores (fileName : List Char) (entries : List Entry)
    (configDir root : Path) (cwdDirs : List Path) (fs0 : FS)
    (hsuf : tarGzSuffix.isSuffixOf fileName = true)
    (hpkg : pkgNameOf fileName ≠ [])
    (hcfg : configDir ∈ fs0.dirs)
    (hcfgfile : configDir ++ ["instar.cfg"] ∈ fs0.files)
    (hpkgdir : configDir ++ ["packages"] ∈ fs0.dirs)
    (hni_f : manifestPath configDir (pkgNameOf fileName) ∉ fs0.files)
    (hni_d : manifestPath configDir (pkgNameOf fileName) ∉ fs0.dirs)
    (hroot : ∀ c ∈ root, c ≠ "." ∧ c ≠ "..")
    (hentries : ∀ e ∈ entries,
      accepted (stripPkg (String.mk (pkgNameOf fileName)) e.path) = true →
        e.isDirEntry = false ∧ e.path ∉ cwdDirs ∧
        (∀ c ∈ stripPkg (String.mk (pkgNameOf fileName)) e.path, c ≠ "." ∧ c ≠ "..") ∧
        GoodDest fs0 root (root ++ stripPkg (String.mk (pkgNameOf fileName)) e.path) ∧
        root ++ stripPkg (String.mk (pkgNameOf fileName)) e.path ≠
          manifestPath configDir (pkgNameOf fileName))
    (hnodup : ((entries.filter (fun e =>
      accepted (stripPkg (String.mk (pkgNameOf fileName)) e.path))).map
      (fun e => root ++ stripPkg (String.mk (pkgNameOf fileName)) e.path)).Nodup) :
    (installTar fileName entries configDir root cwdDirs fs0).isOk = true ∧
      (removePkg (String.mk (pkgNameOf fileName))
        (installTar fileName entries configDir root cwdDirs fs0).manifestOf configDir
        (installTar fileName entries configDir root cwdDirs fs0).fsOf).2 = none ∧
      FS.Same (removePkg (String.mk (pkgNameOf fileName))
        (installTar fileName entries configDir root cwdDirs fs0).manifestOf configDir
        (installTar fileName entries configDir root cwdDirs fs0).fsOf).1 fs0 := by
  have hfilter : ∀ e ∈ entries.filter (fun e =>
      accepted (stripPkg (String.mk (pkgNameOf fileName)) e.path)),
      CleanEntry (String.mk (pkgNameOf fileName)) cwdDirs e := by
    intro e he
    have h1 := List.mem_filter.mp he
    have hacc : accepted (stripPkg (String.mk (pkgNameOf fileName)) e.path) = true := by
      simpa using h1.2
    have h2 := hentries e h1.1 hacc
    exact ⟨h2.1, h2.2.1, hacc, h2.2.2.1⟩
  have hpe_pd : pathExists fs0 (configDir ++ ["packages"]) = true := by
    simp [pathExists, hpkgdir]
  have hpe_mp : pathExists fs0 (manifestPath configDir (pkgNameOf fileName)) = false := by
    simp [pathExists, hni_f, hni_d]
  have hI : installTar fileName entries configDir root cwdDirs fs0 =
      .ok (((entries.filter (fun e =>
          accepted (stripPkg (String.mk (pkgNameOf fileName)) e.path))).map
          (fun e => root ++ stripPkg (String.mk (pkgNameOf fileName)) e.path)).foldl
          FS.writeFile
          { files := insertP fs0.files (manifestPath configDir (pkgNameOf fileName)),
            dirs := fs0.dirs })
        ((entries.filter (fun e =>
          accepted (stripPkg (String.mk (pkgNameOf fileName)) e.path))).map
          (fun e => root ++ stripPkg (String.mk (pkgNameOf fileName)) e.path)) := by
    unfold installTar
    rw [if_pos hsuf]
    dsimp only
    rw [if_pos hpe_pd, if_neg (by rw [hpe_mp]; exact Bool.false_ne_true)]
    rw [foldl_stepEntry_filter, install_fold_spec hroot _ hfilter]
    rw [List.nil_append]
  have hdest : ∀ x ∈ (entries.filter (fun e =>
      accepted (stripPkg (String.mk (pkgNameOf fileName)) e.path))).map
      (fun e => root ++ stripPkg (String.mk (pkgNameOf fileName)) e.path),
      GoodDest fs0 root x := by
    intro x hx
    obtain ⟨e, he, hxe⟩ := List.mem_map.mp hx
    have h1 := List.mem_filter.mp he
    have h2 := hentries e h1.1 (by simpa using h1.2)
    rw [← hxe]
    exact h2.2.2.2.1
  have hmpne : ∀ x ∈ (entries.filter (fun e =>
      accepted (stripPkg (String.mk (pkgNameOf fileName)) e.path))).map
      (fun e => root ++ stripPkg (String.mk (pkgNameOf fileName)) e.path),
      x ≠ manifestPath configDir (pkgNameOf fileName) := by
    intro x hx
    obtain ⟨e, he, hxe⟩ := List.mem_map.mp hx
    have h1 := List.mem_filter.mp he
    have h2 := hentries e h1.1 (by simpa using h1.2)
    rw [← hxe]
    exact h2.2.2.2.2
  have hcore := roundtrip_core fs0 configDir root (pkgNameOf fileName) _
    hpkg hcfg hcfgfile hni_f hdest hmpne hnodup
  refine ⟨?_, ?_, ?_⟩
  · rw [hI]
    rfl
  · rw [hI]
    exact hcore.1
  · rw [hI]
    exact hcore.2

theorem C3_witness :
    (installTar "w.tar.gz".toList [⟨["bin", "f"], false⟩]
        ["h", "c"] ["opt"] [] demoFS).isOk = true ∧
      (removePkg (String.mk (pkgNameOf "w.tar.gz".toList))
        (installTar "w.tar.gz".toList [⟨["bin", "f"], false⟩]
          ["h", "c"] ["opt"] [] demoFS).manifestOf ["h", "c"]
        (installTar "w.tar.gz".toList [⟨["bin", "f"], false⟩]
          ["h", "c"] ["opt"] [] demoFS).fsOf).2 = none ∧
      FS.Same (removePkg (String.mk (pkgNameOf "w.tar.gz".toList))
        (installTar "w.tar.gz".toList [⟨["bin", "f"], false⟩]
          ["h", "c"] ["opt"] [] demoFS).manifestOf ["h", "c"]
        (installTar "w.tar.gz".toList [⟨["bin", "f"], false⟩]
          ["h", "c"] ["opt"] [] demoFS).fsOf).1 demoFS := by
  apply C3_roundtrip_restores
  · decide
  · decide
  · decide
  · decide
  · decide
  · decide
  · decide
  · decide
  · intro e he hacc
    have he2 : e = ⟨["bin", "f"], false⟩ := by simpa using he
    subst he2
    have hstrip : (["opt"] : Path) ++
        stripPkg (String.mk (pkgNameOf "w.tar.gz".toList)) ["bin", "f"] =
        ["opt", "bin", "f"] := by decide
    refine ⟨by decide, by decide, by decide, ?_, by decide⟩
    rw [hstrip]
    exact ⟨by decide, by decide, by decide, by decide,
      Or.inl ⟨"bin", by decide, by decide⟩⟩
  · decide

end Instar
